import Mathlib

/-!
Verification development for the Pin Potha journaling / habit-tracking
application.  The definitions below are a shallow embedding of the
record-synchronization layer: the Firestore adapter functions in
`src/firebase/firestore.ts` and `src/firebase/habits.ts`, and the media
reconciliation logic of `src/components/AddEditEntryModal.tsx`.

Firestore documents are modelled as association lists from field names to
field values (`Doc`); JavaScript `undefined` and `null` are explicit
constructors of the field-value type, and the JavaScript truthiness-based
`a || b` defaulting idiom is modelled by explicit helper functions.
Timestamps are modelled as natural numbers, JavaScript numbers as
rationals.
-/

namespace PinPotha

/-- Field value stored in (or written to) a Firestore document, including
the JavaScript `undefined` marker and the literal `null` sentinel. -/
inductive FVal where
  | undef : FVal
  | null : FVal
  | str : String → FVal
  | num : ℚ → FVal
  | ts : Nat → FVal
  | strList : List String → FVal
deriving DecidableEq

/-- A Firestore document: an association list from field names to values. -/
abbrev Doc := List (String × FVal)

/-- Read a field from a document, `none` modelling JavaScript `undefined`
for a missing key. -/
def getField : Doc → String → Option FVal
  | [], _ => none
  | kv :: rest, k => if kv.1 = k then some kv.2 else getField rest k

/-- Set one field of a document, replacing an existing binding in place or
appending a new one (the semantics of a single field write). -/
def setField : Doc → String → FVal → Doc
  | [], k, v => [(k, v)]
  | kv :: rest, k, v => if kv.1 = k then (k, v) :: rest else kv :: setField rest k v

/-- Firestore `updateDoc` merge semantics: every field of the update
payload is written into the stored document, left to right; fields not
mentioned by the payload are untouched. -/
def updateDocMerge : Doc → Doc → Doc
  | d, [] => d
  | d, kv :: rest => updateDocMerge (setField d kv.1 kv.2) rest

/-- One optional field of a write payload: present exactly when the
option carries a value (the `if (x !== undefined)` inclusion pattern). -/
def optEntry (k : String) : Option FVal → Doc
  | some v => [(k, v)]
  | none => []

/-- The `Object.entries(...).reduce` step of `addEntry` that drops every
key whose value is the `undefined` marker. -/
def stripUndef (d : Doc) : Doc :=
  List.filter (fun kv => decide (kv.2 ≠ FVal.undef)) d

/-- JavaScript string truthiness: the empty string is falsy, so
`some ""` behaves like an absent value in an `a || b` chain. -/
def truthyStr : Option String → Option String
  | some s => if s = "" then none else some s
  | none => none

/-- The JavaScript idiom `a || b || fallback` on (possibly absent)
strings, as used for legacy-synonym resolution on reads and writes. -/
def jsOrStr (a b : Option String) (fallback : String) : String :=
  match truthyStr a with
  | some s => s
  | none =>
    match truthyStr b with
    | some s => s
    | none => fallback

/-- The JavaScript idiom `a || fallback` on a (possibly absent) number,
where `0` is falsy. -/
def jsOrNum (a : Option ℚ) (fallback : ℚ) : ℚ :=
  match a with
  | some x => if x = 0 then fallback else x
  | none => fallback

/-- Media reconciliation from `handleSubmit` in `AddEditEntryModal.tsx`:
`(entry.mediaUrls || []).filter(url => !existingMediaUrls.includes(url))`.
The spec names this computation `reconcile(previousRefs, newRefs)`. -/
def reconcile (previousRefs newRefs : List String) : List String :=
  previousRefs.filter (fun url => !(newRefs.contains url))

/-- Typed read of a string field (`undefined`, `null` or a non-string
value all behave as absent in the truthiness-based defaulting chains). -/
def getStr (d : Doc) (k : String) : Option String :=
  match getField d k with
  | some (FVal.str s) => some s
  | _ => none

/-- Typed read of a timestamp field (`data.f?.toDate()`). -/
def getTs (d : Doc) (k : String) : Option Nat :=
  match getField d k with
  | some (FVal.ts t) => some t
  | _ => none

/-- Typed read of a string-list field. -/
def getStrList (d : Doc) (k : String) : Option (List String) :=
  match getField d k with
  | some (FVal.strList l) => some l
  | _ => none

/-- Typed read of a numeric field. -/
def getNum (d : Doc) (k : String) : Option ℚ :=
  match getField d k with
  | some (FVal.num x) => some x
  | _ => none

/-- Input to `addEntry` / `updateEntry` construction: the `Entry` shape of
`firestore.ts` with every optional field modelled as an `Option`
(`none` = the field is absent / `undefined`). -/
structure EntryInput where
  userId : String
  title : Option String
  content : Option String
  name : Option String
  description : Option String
  date : Option Nat
  mediaUrls : Option (List String)
deriving DecidableEq

/-- The `cleanEntry` object built by `addEntry` in `firestore.ts`:
`userId`, `title: entry.title || entry.name || ''`,
`content: entry.content || entry.description || ''`, `createdAt`,
`updatedAt`, `mediaUrls: entry.mediaUrls || []`, and `date` only when the
input date is present. -/
def addEntryClean (e : EntryInput) (now : Nat) : Doc :=
  [(("userId" : String), FVal.str e.userId),
   (("title" : String), FVal.str (jsOrStr e.title e.name (""))),
   (("content" : String), FVal.str (jsOrStr e.content e.description (""))),
   (("createdAt" : String), FVal.ts now),
   (("updatedAt" : String), FVal.ts now),
   (("mediaUrls" : String), FVal.strList (e.mediaUrls.getD []))]
  ++ optEntry ("date") (e.date.map FVal.ts)

/-- The `finalEntry` document actually written by `addEntry`:
`cleanEntry` with every `undefined`-valued key removed by the
`Object.entries(...).reduce` step. -/
def addEntryDoc (e : EntryInput) (now : Nat) : Doc :=
  stripUndef (addEntryClean e now)

/-- The document written by the older `addEntry` variant (the one whose
creation path requires a non-empty label): `title` and `name` default
each other with final fallback `'Untitled'`, `description` defaults to
`''`, `content` to `description` then `''`. -/
def addEntryLegacyDoc (e : EntryInput) (now : Nat) : Doc :=
  stripUndef
    ([(("title" : String), FVal.str (jsOrStr e.title e.name ("Untitled"))),
      (("name" : String), FVal.str (jsOrStr e.name e.title ("Untitled"))),
      (("description" : String), FVal.str (jsOrStr e.description none (""))),
      (("content" : String), FVal.str (jsOrStr e.content e.description (""))),
      (("userId" : String), FVal.str e.userId),
      (("mediaUrls" : String), FVal.strList (e.mediaUrls.getD [])),
      (("createdAt" : String), FVal.ts now)]
     ++ optEntry ("date") (e.date.map FVal.ts))

/-- Partial update payload for `updateEntry`: outer `none` means the
field is not present in the payload; for `date`, `some none` is the
explicit clear (the caller passed `null`). -/
structure EntryUpdates where
  title : Option String
  content : Option String
  description : Option String
  name : Option String
  date : Option (Option Nat)
  mediaUrls : Option (List String)
deriving DecidableEq

/-- Value written for a present `date` update:
`updates.date ? Timestamp.fromDate(updates.date) : null`. -/
def dateVal : Option Nat → FVal
  | some d => FVal.ts d
  | none => FVal.null

/-- The `cleanUpdates` object built by `updateEntry` in `firestore.ts`:
always `updatedAt`, then each payload field only when it is not
`undefined`, with `date` mapped through `dateVal`. -/
def updateEntryDoc (u : EntryUpdates) (now : Nat) : Doc :=
  (("updatedAt" : String), FVal.ts now) ::
    (optEntry ("title") (u.title.map FVal.str)
      ++ optEntry ("content") (u.content.map FVal.str)
      ++ optEntry ("description") (u.description.map FVal.str)
      ++ optEntry ("name") (u.name.map FVal.str)
      ++ optEntry ("date") (u.date.map dateVal)
      ++ optEntry ("mediaUrls") (u.mediaUrls.map FVal.strList))

/-- Public `Entry` shape produced by the read path of `getUserEntries`. -/
structure EntryRead where
  id : String
  userId : Option String
  title : String
  content : String
  date : Option Nat
  createdAt : Option Nat
  updatedAt : Option Nat
  mediaUrls : List String
deriving DecidableEq

/-- The per-document mapping of `getUserEntries` (and of the re-read in
`updateEntry`): `title: data.title || data.name || ''`,
`content: data.content || data.description || ''`,
`mediaUrls: data.mediaUrls || []`, timestamps via `?.toDate()`. -/
def readEntry (id : String) (d : Doc) : EntryRead :=
  { id := id
    userId := getStr d ("userId")
    title := jsOrStr (getStr d ("title")) (getStr d ("name")) ("")
    content := jsOrStr (getStr d ("content")) (getStr d ("description")) ("")
    date := getTs d ("date")
    createdAt := getTs d ("createdAt")
    updatedAt := getTs d ("updatedAt")
    mediaUrls := (getStrList d ("mediaUrls")).getD [] }

/-- Operation dispatched by `handleSubmit` in `AddEditEntryModal.tsx`. -/
inductive SubmitOp where
  | uploadOp (files : List String)
  | deleteFilesOp (urls : List String)
  | updateEntryOp (id : String)
  | addEntryOp
deriving DecidableEq

/-- State of the modal at submit time: editing flag, the edited entry's
id and previous `mediaUrls`, the `existingMediaUrls` state after user
removals, and the newly picked files. -/
structure SubmitInput where
  isEditing : Bool
  entryId : String
  prevMediaUrls : List String
  existingMediaUrls : List String
  newFiles : List String
deriving DecidableEq

/-- The sequence of awaited remote operations of `handleSubmit`: upload
new files when any, then — on the editing path — delete the removed
media (when any) and only then call `updateEntry`; on the creation path,
call `addEntry`. -/
def handleSubmitOps (s : SubmitInput) : List SubmitOp :=
  (if s.newFiles = [] then [] else [SubmitOp.uploadOp s.newFiles])
  ++ (if s.isEditing then
        (if reconcile s.prevMediaUrls s.existingMediaUrls = [] then []
         else [SubmitOp.deleteFilesOp (reconcile s.prevMediaUrls s.existingMediaUrls)])
        ++ [SubmitOp.updateEntryOp s.entryId]
      else [SubmitOp.addEntryOp])

/-- Recognizer for a media-deletion step of the submit trace. -/
def isDeleteFilesOp : SubmitOp → Bool
  | SubmitOp.deleteFilesOp _ => true
  | _ => false

/-- Recognizer for the record-update step of the submit trace. -/
def isUpdateEntryOp : SubmitOp → Bool
  | SubmitOp.updateEntryOp _ => true
  | _ => false

/-- Ordering stated by the spec: every media deletion in a trace occurs
only after some record update has already been issued. -/
abbrev deletesOnlyAfterUpdate (t : List SubmitOp) : Prop :=
  ∀ i < t.length, isDeleteFilesOp (t.getD i SubmitOp.addEntryOp) = true →
    ∃ j < i, isUpdateEntryOp (t.getD j SubmitOp.addEntryOp) = true

/-- Ordering actually implemented: every media deletion in a trace
strictly precedes every record update. -/
abbrev deletesBeforeUpdate (t : List SubmitOp) : Prop :=
  ∀ i < t.length, isDeleteFilesOp (t.getD i SubmitOp.addEntryOp) = true →
    ∀ j < t.length, isUpdateEntryOp (t.getD j SubmitOp.addEntryOp) = true → i < j

/-- Listing adapter for entries (`getUserEntries` in `firestore.ts`): maps
fetched documents through the read normalization; its `catch` block logs
and rethrows, so a fetch failure propagates. -/
def getUserEntries (fetched : Except String (List (String × Doc))) :
    Except String (List EntryRead) :=
  match fetched with
  | Except.ok docs => Except.ok (docs.map (fun p => readEntry p.1 p.2))
  | Except.error e => Except.error e

/-- Public `Habit` shape produced by the read path of `getUserHabits`. -/
structure HabitRead where
  id : String
  name : String
  description : String
  targetHours : ℚ
  color : String
  userId : Option String
  createdAt : Nat
  updatedAt : Nat
deriving DecidableEq

/-- Fixed color palette from `types.ts`. -/
def DEFAULT_COLORS : List String :=
  [("#3b82f6"), ("#10b981"), ("#8b5cf6"), ("#ec4899"), ("#f59e0b"), ("#6366f1")]

/-- The per-document mapping of `getUserHabits`: string fields default to
`''`, `targetHours` to `1`, `color` to the first palette entry, missing
timestamps to the current date. -/
def readHabit (now : Nat) (id : String) (d : Doc) : HabitRead :=
  { id := id
    name := jsOrStr (getStr d ("name")) none ("")
    description := jsOrStr (getStr d ("description")) none ("")
    targetHours := jsOrNum (getNum d ("targetHours")) 1
    color := jsOrStr (getStr d ("color")) none (DEFAULT_COLORS.getD 0 (""))
    userId := getStr d ("userId")
    createdAt := (getTs d ("createdAt")).getD now
    updatedAt := (getTs d ("updatedAt")).getD now }

/-- Listing adapter for habits (`getUserHabits` in `habits.ts`): its
`catch` block returns the empty array, so a fetch failure degrades to an
empty listing. -/
def getUserHabits (now : Nat) (fetched : Except String (List (String × Doc))) :
    Except String (List HabitRead) :=
  match fetched with
  | Except.ok docs => Except.ok (docs.map (fun p => readHabit now p.1 p.2))
  | Except.error _ => Except.ok []

/-- Error behaviour of `addEntry`: the `catch` block logs and rethrows,
so a failed write propagates to the caller. -/
def addEntryResult (write : Except String String) : Except String String :=
  match write with
  | Except.ok docId => Except.ok docId
  | Except.error e => Except.error e

/-- Error behaviour of `updateEntry`: on success the re-read document is
normalized and returned; the `catch` block rethrows any failure. -/
def updateEntryResult (entryId : String) (stored : Except String Doc) :
    Except String EntryRead :=
  match stored with
  | Except.ok d => Except.ok (readEntry entryId d)
  | Except.error e => Except.error e

/-- Error behaviour of `deleteEntry`: the `catch` block rethrows. -/
def deleteEntryResult (transport : Except String Unit) : Except String Unit :=
  match transport with
  | Except.ok u => Except.ok u
  | Except.error e => Except.error e

/-- Remote persistence operation dispatched by the habits adapter. -/
inductive StoreOp where
  | setDocOp (coll : String) (id : String) (d : Doc)
  | deleteDocOp (coll : String) (id : String)
  | getDocsOp (coll : String)
deriving DecidableEq

/-- Recognizer for a deletion dispatch. -/
def isDeleteOp : StoreOp → Bool
  | StoreOp.deleteDocOp _ _ => true
  | _ => false

/-- Input to `createHabit`: `userId` as an option (`none` = absent). -/
structure HabitInput where
  userId : Option String
  name : String
  description : Option String
  targetHours : ℚ
  color : String
deriving DecidableEq

/-- JavaScript falsiness of a possibly-absent string (`!habit.userId`):
true when the value is absent or the empty string. -/
def jsFalsyOptStr : Option String → Bool
  | none => true
  | some s => s == ""

/-- The `habitData` object `createHabit` persists: the input fields plus
the assigned `id` and both timestamps. -/
def habitDataDoc (h : HabitInput) (newId : String) (now : Nat) : Doc :=
  optEntry ("userId") (h.userId.map FVal.str)
  ++ [(("name" : String), FVal.str h.name)]
  ++ optEntry ("description") (h.description.map FVal.str)
  ++ [(("targetHours" : String), FVal.num h.targetHours),
      (("color" : String), FVal.str h.color),
      (("id" : String), FVal.str newId),
      (("createdAt" : String), FVal.ts now),
      (("updatedAt" : String), FVal.ts now)]

/-- The `createHabit` adapter: fails before any persistence dispatch when
`userId` is falsy, otherwise dispatches exactly one `setDoc`. Returns
the result together with the list of dispatched store operations. -/
def createHabit (h : HabitInput) (newId : String) (now : Nat) :
    Except String Doc × List StoreOp :=
  if jsFalsyOptStr h.userId then
    (Except.error ("User ID is required to create a habit"), [])
  else
    (Except.ok (habitDataDoc h newId now),
     [StoreOp.setDocOp ("habits") newId (habitDataDoc h newId now)])

/-- A stored `HabitEntry` record, reduced to the fields the cascade
delete inspects. -/
structure HabitEntryRec where
  id : String
  habitId : String
deriving DecidableEq

/-- The operations dispatched by `deleteHabit`: delete the habit's own
document, query its entries, then delete each entry sharing `habitId`. -/
def deleteHabitOps (id : String) (entriesStore : List HabitEntryRec) : List StoreOp :=
  StoreOp.deleteDocOp ("habits") id
    :: StoreOp.getDocsOp ("habitEntries")
    :: (entriesStore.filter (fun e => e.habitId == id)).map
         (fun e => StoreOp.deleteDocOp ("habitEntries") e.id)

/-- Effect of one store operation on the habit-entries collection. -/
def applyOp (store : List HabitEntryRec) (op : StoreOp) : List HabitEntryRec :=
  match op with
  | StoreOp.deleteDocOp c did =>
    if c == "habitEntries" then store.filter (fun e => !(e.id == did)) else store
  | _ => store

/-- Effect of a sequence of store operations on the habit-entries
collection. -/
def runOps (store : List HabitEntryRec) (ops : List StoreOp) : List HabitEntryRec :=
  ops.foldl applyOp store

/-- Partial update payload for `updateHabit` (`Partial<Omit<Habit, 'id'
| 'userId' | 'createdAt'>>`). -/
structure HabitUpdates where
  name : Option String
  description : Option String
  targetHours : Option ℚ
  color : Option String
  updatedAt : Option Nat
deriving DecidableEq

/-- The object `updateHabit` passes to `updateDoc`:
`{...updates, updatedAt: Timestamp.fromDate(now)}` — the spread of the
present payload fields with `updatedAt` overridden last. -/
def updateHabitDoc (u : HabitUpdates) (now : Nat) : Doc :=
  setField
    (optEntry ("name") (u.name.map FVal.str)
      ++ optEntry ("description") (u.description.map FVal.str)
      ++ optEntry ("targetHours") (u.targetHours.map FVal.num)
      ++ optEntry ("color") (u.color.map FVal.str)
      ++ optEntry ("updatedAt") (u.updatedAt.map FVal.ts))
    ("updatedAt") (FVal.ts now)

/-- Sum of hours over a habit's entries as computed by `getHabitStats`:
`reduce((sum, doc) => sum + (doc.data().hours || 0), 0)`; an absent
`hours` field contributes `0`. -/
def totalHours (hoursList : List (Option ℚ)) : ℚ :=
  hoursList.foldl (fun sum h => sum + jsOrNum h 0) 0

/-- Result shape of `getHabitStats`. -/
structure HabitStats where
  totalHours : ℚ
  targetHours : ℚ
  progressPercentage : ℤ
  totalEntries : ℕ
deriving DecidableEq

/-- The statistics computation of `getHabitStats`: total hours, the habit's
target, `min(100, round(totalHours / targetHours * 100))`, and the entry
count. -/
def getHabitStats (targetHours : ℚ) (entryHours : List (Option ℚ)) : HabitStats :=
  { totalHours := totalHours entryHours
    targetHours := targetHours
    progressPercentage := min 100 (round (totalHours entryHours / targetHours * 100))
    totalEntries := entryHours.length }

theorem mem_optEntry {kv : String × FVal} {k : String} {o : Option FVal}
    (h : kv ∈ optEntry k o) : ∃ v, o = some v ∧ kv = (k, v) := by
  cases o with
  | none => simp [optEntry] at h
  | some v =>
    simp [optEntry] at h
    exact ⟨v, rfl, h⟩

theorem mem_stripUndef {kv : String × FVal} {d : Doc} :
    kv ∈ stripUndef d ↔ kv ∈ d ∧ kv.2 ≠ FVal.undef := by
  simp [stripUndef, List.mem_filter]

theorem getField_setField_self (d : Doc) (k : String) (v : FVal) :
    getField (setField d k v) k = some v := by
  induction d with
  | nil => simp [setField, getField]
  | cons kv rest ih =>
    by_cases h : kv.1 = k
    · simp [setField, h, getField]
    · simp [setField, h, getField, ih]

theorem getField_setField_ne (d : Doc) (k k' : String) (v : FVal) (h : k' ≠ k) :
    getField (setField d k v) k' = getField d k' := by
  have hkk : ¬ k = k' := fun he => h he.symm
  induction d with
  | nil => simp [setField, getField, hkk]
  | cons kv rest ih =>
    by_cases hk : kv.1 = k
    · have hk' : ¬ kv.1 = k' := fun he => h (he.symm.trans hk)
      simp [setField, hk, getField, hkk, hk']
    · by_cases hk' : kv.1 = k'
      · simp [setField, hk, getField, hk', h]
      · simp [setField, hk, getField, hk', ih]

theorem updateDocMerge_append (d : Doc) (u₁ u₂ : Doc) :
    updateDocMerge d (u₁ ++ u₂) = updateDocMerge (updateDocMerge d u₁) u₂ := by
  induction u₁ generalizing d with
  | nil => rfl
  | cons kv rest ih => simp [updateDocMerge, ih]

theorem getField_updateDocMerge_not_mem (d : Doc) (u : Doc) (k : String)
    (h : ∀ kv ∈ u, kv.1 ≠ k) :
    getField (updateDocMerge d u) k = getField d k := by
  induction u generalizing d with
  | nil => rfl
  | cons kv rest ih =>
    rw [updateDocMerge, ih _ (fun kv' h' => h kv' (List.mem_cons_of_mem _ h'))]
    exact getField_setField_ne _ _ _ _ (Ne.symm (h kv (List.mem_cons_self _ _)))

theorem getField_updateDocMerge_last (d : Doc) (pre : Doc) (k : String) (v : FVal) :
    getField (updateDocMerge d (pre ++ [(k, v)])) k = some v := by
  rw [updateDocMerge_append]
  simp [updateDocMerge]
  exact getField_setField_self _ _ _

theorem setField_append_of_not_mem (d₁ d₂ : Doc) (k : String) (v : FVal)
    (h : ∀ kv ∈ d₁, kv.1 ≠ k) :
    setField (d₁ ++ d₂) k v = d₁ ++ setField d₂ k v := by
  induction d₁ with
  | nil => rfl
  | cons kv rest ih =>
    have hk : kv.1 ≠ k := h kv (List.mem_cons_self _ _)
    simp [setField, hk, ih (fun kv' h' => h kv' (List.mem_cons_of_mem _ h'))]

theorem setField_of_not_mem (d : Doc) (k : String) (v : FVal)
    (h : ∀ kv ∈ d, kv.1 ≠ k) :
    setField d k v = d ++ [(k, v)] := by
  induction d with
  | nil => rfl
  | cons kv rest ih =>
    have hk : kv.1 ≠ k := h kv (List.mem_cons_self _ _)
    simp [setField, hk, ih (fun kv' h' => h kv' (List.mem_cons_of_mem _ h'))]

theorem reconcile_toFinset (p n : List String) :
    (reconcile p n).toFinset = p.toFinset \ n.toFinset := by
  ext x
  simp [reconcile, List.mem_filter]

/-- C3: for every pair of reference lists, the set of media references
selected for deletion equals the set difference previousRefs minus
newRefs under set semantics (duplicates collapse, order irrelevant), and
in particular `reconcile(["a","a"], [])` yields the single-element set
containing `"a"`. -/
theorem claim_C3_reconcile_set_difference :
    (∀ p n : List String, (reconcile p n).toFinset = p.toFinset \ n.toFinset)
    ∧ (reconcile [("a" : String), ("a" : String)] []).toFinset = {("a" : String)}
    ∧ (reconcile ([] : List String) []).toFinset = (∅ : Finset String)
    ∧ (reconcile [("a" : String), ("b" : String)] [("b" : String), ("c" : String)]).toFinset
        = {("a" : String)} := by
  refine ⟨reconcile_toFinset, ?_, ?_, ?_⟩
  · decide
  · decide
  · decide

/-- C1 counterexample: on the edit path with one removed attachment
(previous media `["a"]`, all removed, no new files), `handleSubmit`
dispatches the media deletion at position 0 and the record update at
position 1, so the deletion is NOT issued after the update succeeded. -/
theorem claim_C1_counterexample :
    handleSubmitOps
        { isEditing := true, entryId := ("e1"), prevMediaUrls := [("a")],
          existingMediaUrls := [], newFiles := [] }
      = [SubmitOp.deleteFilesOp [("a")], SubmitOp.updateEntryOp ("e1")]
    ∧ ¬ deletesOnlyAfterUpdate
        (handleSubmitOps
          { isEditing := true, entryId := ("e1"), prevMediaUrls := [("a")],
            existingMediaUrls := [], newFiles := [] }) := by
  constructor
  · rfl
  · intro hcl
    obtain ⟨j, hj, -⟩ := hcl 0 (by decide) (by decide)
    exact absurd hj (Nat.not_lt_zero j)

/-- C1 (amended): on every edit, the orphaned-media deletions are issued
strictly before the owning record's update call — the update is
dispatched only after the deletions, the reverse of the spec's
persist-first-delete-second ordering. -/
theorem claim_C1_delete_before_update (s : SubmitInput) (h : s.isEditing = true) :
    deletesBeforeUpdate (handleSubmitOps s) := by
  intro i hi hdel j hj hupd
  by_cases hf : s.newFiles = [] <;>
    by_cases hr : reconcile s.prevMediaUrls s.existingMediaUrls = [] <;>
      simp [handleSubmitOps, hf, hr, h] at hi hj hdel hupd <;>
      rcases i with - | - | - | i <;> rcases j with - | - | - | j <;>
        simp_all [isDeleteFilesOp, isUpdateEntryOp] <;> omega

/-- C1 witness: the amended ordering holds on a concrete edit input. -/
theorem claim_C1_witness :
    ({ isEditing := true, entryId := ("e1"), prevMediaUrls := [("a")],
       existingMediaUrls := [], newFiles := [("f")] } : SubmitInput).isEditing = true
    ∧ deletesBeforeUpdate
        (handleSubmitOps
          { isEditing := true, entryId := ("e1"), prevMediaUrls := [("a")],
            existingMediaUrls := [], newFiles := [("f")] }) :=
  ⟨rfl, claim_C1_delete_before_update _ rfl⟩

/-- C2 counterexample: when the underlying fetch fails, the entries
listing `getUserEntries` propagates the error instead of returning an
empty sequence. -/
theorem claim_C2_counterexample :
    getUserEntries (Except.error ("network down")) = Except.error ("network down")
    ∧ getUserEntries (Except.error ("network down")) ≠ Except.ok ([] : List EntryRead) := by
  refine ⟨rfl, ?_⟩
  intro hcontra
  exact Except.noConfusion hcontra

/-- C2 (amended): only the habits listing degrades a fetch failure to an
empty sequence; the entries listing propagates the error, as do the
single-record operations create, update and delete. -/
theorem claim_C2_error_policy :
    (∀ (e : String) (now : Nat), getUserHabits now (Except.error e) = Except.ok [])
    ∧ (∀ e : String, getUserEntries (Except.error e) = Except.error e)
    ∧ (∀ e : String, addEntryResult (Except.error e) = Except.error e)
    ∧ (∀ (e entryId : String),
        updateEntryResult entryId (Except.error e) = Except.error e)
    ∧ (∀ e : String, deleteEntryResult (Except.error e) = Except.error e) :=
  ⟨fun _ _ => rfl, fun _ => rfl, fun _ => rfl, fun _ _ => rfl, fun _ => rfl⟩

/-- C6: creating a Habit whose `userId` is absent (or empty, the other
falsy string) fails with the validation error and dispatches zero store
operations. -/
theorem claim_C6_validation_before_store (h : HabitInput) (newId : String) (now : Nat)
    (hu : jsFalsyOptStr h.userId = true) :
    createHabit h newId now
      = (Except.error ("User ID is required to create a habit"), ([] : List StoreOp)) := by
  simp [createHabit, hu]

/-- C6 witness: concrete habit input with no `userId`. -/
theorem claim_C6_witness :
    jsFalsyOptStr ((none : Option String)) = true
    ∧ createHabit
        { userId := none, name := ("Reading"), description := none,
          targetHours := 1, color := ("#3b82f6") } ("h1") 0
      = (Except.error ("User ID is required to create a habit"), []) :=
  ⟨rfl, claim_C6_validation_before_store _ _ _ rfl⟩

theorem runOps_deleteAll (l : List HabitEntryRec) (store : List HabitEntryRec) :
    runOps store (l.map (fun c => StoreOp.deleteDocOp ("habitEntries") c.id))
      = store.filter (fun e => !(l.any (fun c => e.id == c.id))) := by
  induction l generalizing store with
  | nil => simp [runOps]
  | cons c rest ih =>
    have h1 : runOps store ((c :: rest).map (fun c => StoreOp.deleteDocOp ("habitEntries") c.id))
        = runOps (store.filter (fun e => !(e.id == c.id)))
            (rest.map (fun c => StoreOp.deleteDocOp ("habitEntries") c.id)) := by
      simp [runOps, applyOp]
    rw [h1, ih, List.filter_filter]
    congr 1
    funext e
    simp [List.any_cons, Bool.and_comm]

/-- C7: deleting a Habit with N associated HabitEntry records dispatches
the habit's own delete first plus one delete per associated entry (N+1
deletion dispatches), and afterwards no HabitEntry record with that
`habitId` remains. -/
theorem claim_C7_cascade_delete (id : String) (store : List HabitEntryRec) :
    ((deleteHabitOps id store).filter isDeleteOp).length
        = (store.filter (fun e => e.habitId == id)).length + 1
    ∧ (deleteHabitOps id store).head? = some (StoreOp.deleteDocOp ("habits") id)
    ∧ (runOps store (deleteHabitOps id store)).filter (fun e => e.habitId == id) = [] := by
  have hall : ((store.filter (fun e => e.habitId == id)).map
        (fun e => StoreOp.deleteDocOp ("habitEntries") e.id)).filter isDeleteOp
      = (store.filter (fun e => e.habitId == id)).map
          (fun e => StoreOp.deleteDocOp ("habitEntries") e.id) := by
    apply List.filter_eq_self.mpr
    intro op hop
    obtain ⟨e, -, rfl⟩ := List.mem_map.mp hop
    rfl
  refine ⟨?_, rfl, ?_⟩
  · simp [deleteHabitOps, List.filter_cons, isDeleteOp, hall, Nat.add_comm]
  · have hstep : runOps store (deleteHabitOps id store)
        = runOps store ((store.filter (fun e => e.habitId == id)).map
            (fun e => StoreOp.deleteDocOp ("habitEntries") e.id)) := rfl
    rw [hstep, runOps_deleteAll]
    apply List.filter_eq_nil_iff.mpr
    intro e he hb
    have heS : e ∈ store := (List.mem_filter.mp he).1
    have hkeep := (List.mem_filter.mp he).2
    have hmem : e ∈ store.filter (fun x => x.habitId == id) :=
      List.mem_filter.mpr ⟨heS, hb⟩
    have hany : (store.filter (fun x => x.habitId == id)).any
        (fun c => e.id == c.id) = true :=
      List.any_eq_true.mpr ⟨e, hmem, by simp⟩
    simp [hany] at hkeep

theorem jsOrStr_some_of_ne (s : String) (b : Option String) (fb : String) (h : ¬ s = "") :
    jsOrStr (some s) b fb = s := by
  simp [jsOrStr, truthyStr, h]

theorem jsOrStr_none_some (s fb : String) :
    jsOrStr none (some s) fb = if s = "" then fb else s := by
  by_cases h : s = "" <;> simp [jsOrStr, truthyStr, h]

theorem jsOrStr_some_none (s fb : String) :
    jsOrStr (some s) none fb = if s = "" then fb else s := by
  by_cases h : s = "" <;> simp [jsOrStr, truthyStr, h]

theorem jsOrStr_empty_first (b : Option String) (fb : String) :
    jsOrStr (some ("")) b fb = jsOrStr none b fb := by
  simp [jsOrStr, truthyStr]

/-- C4: no field of a document produced by the write-normalization path
(creation via `addEntry` or partial update via `updateEntry`) ever holds
the `undefined` marker, and the only field ever written as a literal
`null` is `date` in the update path, exactly when the payload explicitly
clears the date. -/
theorem claim_C4_no_undef_only_date_null
    (e : EntryInput) (u : EntryUpdates) (now : Nat) :
    (∀ kv ∈ addEntryDoc e now, kv.2 ≠ FVal.undef ∧ kv.2 ≠ FVal.null)
    ∧ (∀ kv ∈ updateEntryDoc u now,
        kv.2 ≠ FVal.undef
        ∧ (kv.2 = FVal.null → kv.1 = ("date" : String) ∧ u.date = some none)) := by
  constructor
  · intro kv hkv
    unfold addEntryDoc at hkv
    rw [mem_stripUndef] at hkv
    obtain ⟨hmem, hund⟩ := hkv
    refine ⟨hund, ?_⟩
    rcases List.mem_append.mp hmem with h | h
    · fin_cases h <;> simp
    · obtain ⟨v, hv, rfl⟩ := mem_optEntry h
      obtain ⟨d', -, rfl⟩ := Option.map_eq_some'.mp hv
      simp
  · intro kv hkv
    rcases List.mem_cons.mp hkv with h | h
    · subst h
      exact ⟨by simp, by simp⟩
    · simp only [List.mem_append] at h
      rcases h with ((((h | h) | h) | h) | h) | h
      · obtain ⟨v, hv, rfl⟩ := mem_optEntry h
        obtain ⟨t, -, rfl⟩ := Option.map_eq_some'.mp hv
        exact ⟨by simp, by simp⟩
      · obtain ⟨v, hv, rfl⟩ := mem_optEntry h
        obtain ⟨t, -, rfl⟩ := Option.map_eq_some'.mp hv
        exact ⟨by simp, by simp⟩
      · obtain ⟨v, hv, rfl⟩ := mem_optEntry h
        obtain ⟨t, -, rfl⟩ := Option.map_eq_some'.mp hv
        exact ⟨by simp, by simp⟩
      · obtain ⟨v, hv, rfl⟩ := mem_optEntry h
        obtain ⟨t, -, rfl⟩ := Option.map_eq_some'.mp hv
        exact ⟨by simp, by simp⟩
      · obtain ⟨v, hv, rfl⟩ := mem_optEntry h
        obtain ⟨od, hod, rfl⟩ := Option.map_eq_some'.mp hv
        refine ⟨?_, ?_⟩
        · cases od <;> simp [dateVal]
        · intro hn
          cases od with
          | none => exact ⟨rfl, hod⟩
          | some dd => simp [dateVal] at hn
      · obtain ⟨v, hv, rfl⟩ := mem_optEntry h
        obtain ⟨l, -, rfl⟩ := Option.map_eq_some'.mp hv
        exact ⟨by simp, by simp⟩

/-- C4 witness: the explicit date-clear update writes the null sentinel
for `date`, and a concrete creation document holds neither marker. -/
theorem claim_C4_witness :
    (("date" : String), FVal.null) ∈ updateEntryDoc
        { title := none, content := none, description := none, name := none,
          date := some none, mediaUrls := none } 0
    ∧ FVal.null ≠ FVal.undef
    ∧ ((("date" : String), FVal.null).2 = FVal.null →
        (("date" : String), FVal.null).1 = ("date" : String)
        ∧ ({ title := none, content := none, description := none, name := none,
             date := some none, mediaUrls := none } : EntryUpdates).date = some none) := by
  refine ⟨by decide, ?_, ?_⟩
  · exact (claim_C4_no_undef_only_date_null
      { userId := ("u"), title := none, content := none, name := none,
        description := none, date := none, mediaUrls := none }
      { title := none, content := none, description := none, name := none,
        date := some none, mediaUrls := none } 0).2
      (("date" : String), FVal.null) (by decide) |>.1
  · exact (claim_C4_no_undef_only_date_null
      { userId := ("u"), title := none, content := none, name := none,
        description := none, date := none, mediaUrls := none }
      { title := none, content := none, description := none, name := none,
        date := some none, mediaUrls := none } 0).2
      (("date" : String), FVal.null) (by decide) |>.2

/-- C9: writing an Entry that supplies only the legacy field names
(`name`, `description`) and omits `mediaUrls`, then reading it back,
yields canonical `title` and `content` equal to the supplied legacy
values and an empty `mediaUrls` sequence. -/
theorem claim_C9_legacy_roundtrip (n d uid : String) (now : Nat) :
    (readEntry ("id1") (addEntryDoc
        { userId := uid, title := none, content := none, name := some n,
          description := some d, date := none, mediaUrls := none } now)).title = n
    ∧ (readEntry ("id1") (addEntryDoc
        { userId := uid, title := none, content := none, name := some n,
          description := some d, date := none, mediaUrls := none } now)).content = d
    ∧ (readEntry ("id1") (addEntryDoc
        { userId := uid, title := none, content := none, name := some n,
          description := some d, date := none, mediaUrls := none } now)).mediaUrls
        = [] := by
  have hdoc : addEntryDoc
      { userId := uid, title := none, content := none, name := some n,
        description := some d, date := none, mediaUrls := none } now
      = [(("userId" : String), FVal.str uid),
         (("title" : String), FVal.str (jsOrStr none (some n) (""))),
         (("content" : String), FVal.str (jsOrStr none (some d) (""))),
         (("createdAt" : String), FVal.ts now),
         (("updatedAt" : String), FVal.ts now),
         (("mediaUrls" : String), FVal.strList [])] := rfl
  rw [hdoc]
  refine ⟨?_, ?_, ?_⟩
  · show jsOrStr (some (jsOrStr none (some n) (""))) none ("") = n
    rw [jsOrStr_none_some]
    by_cases hn : n = ""
    · simp [hn, jsOrStr_some_none]
    · simp [hn, jsOrStr_some_of_ne _ _ _ hn]
  · show jsOrStr (some (jsOrStr none (some d) (""))) none ("") = d
    rw [jsOrStr_none_some]
    by_cases hd : d = ""
    · simp [hd, jsOrStr_some_none]
    · simp [hd, jsOrStr_some_of_ne _ _ _ hd]
  · rfl

/-- C5 counterexample: an Entry supplying both fields of a synonym pair,
with the canonical one empty (`title = ""`, `name = "x"`), is written
with `title = "x"`: the supplied canonical value does not win. -/
theorem claim_C5_counterexample :
    getField (addEntryDoc
        { userId := ("u1"), title := some (""), content := none, name := some ("x"),
          description := none, date := none, mediaUrls := none } 0) ("title")
      = some (FVal.str ("x"))
    ∧ getField (addEntryDoc
        { userId := ("u1"), title := some (""), content := none, name := some ("x"),
          description := none, date := none, mediaUrls := none } 0) ("title")
      ≠ some (FVal.str ("")) := by
  exact ⟨by decide, by decide⟩

/-- C5 (amended): the synonym pairs resolve by JavaScript truthiness in
the fixed order canonical, then legacy, then fallback: a non-empty
canonical value wins over any legacy value, but a supplied empty
canonical value is treated as absent and falls through to the legacy
field; a non-empty legacy value is copied into the canonical field on
write (fallback `""`, or `"Untitled"` on the legacy creation path) and
on read. -/
theorem claim_C5_synonym_resolution :
    (∀ (c : String) (l : Option String) (fb : String),
      ¬ c = "" → jsOrStr (some c) l fb = c)
    ∧ (∀ (l fb : String), ¬ l = "" →
        jsOrStr none (some l) fb = l ∧ jsOrStr (some ("")) (some l) fb = l)
    ∧ (∀ fb : String, jsOrStr none none fb = fb)
    ∧ (∀ (e : EntryInput) (now : Nat),
        getField (addEntryDoc e now) ("title")
            = some (FVal.str (jsOrStr e.title e.name ("")))
        ∧ getField (addEntryDoc e now) ("content")
            = some (FVal.str (jsOrStr e.content e.description ("")))
        ∧ getField (addEntryLegacyDoc e now) ("title")
            = some (FVal.str (jsOrStr e.title e.name ("Untitled"))))
    ∧ (∀ (id : String) (d : Doc),
        (readEntry id d).title
          = jsOrStr (getStr d ("title")) (getStr d ("name")) ("")
        ∧ (readEntry id d).content
          = jsOrStr (getStr d ("content")) (getStr d ("description")) ("")) := by
  refine ⟨?_, ?_, ?_, ?_, ?_⟩
  · intro c l fb hc
    exact jsOrStr_some_of_ne _ _ _ hc
  · intro l fb hl
    constructor
    · rw [jsOrStr_none_some]
      simp [hl]
    · rw [jsOrStr_empty_first, jsOrStr_none_some]
      simp [hl]
  · intro fb
    rfl
  · intro e now
    exact ⟨rfl, rfl, rfl⟩
  · intro id d
    exact ⟨rfl, rfl⟩

/-- C5 witness: amended resolution at concrete inputs. -/
theorem claim_C5_witness :
    (¬ ("t" : String) = "") ∧ jsOrStr (some ("t")) (some ("x")) ("") = ("t" : String)
    ∧ ((¬ ("x" : String) = "") ∧ jsOrStr none (some ("x")) ("") = ("x" : String)) := by
  refine ⟨by decide, ?_, by decide, ?_⟩
  · exact claim_C5_synonym_resolution.1 ("t") (some ("x")) ("") (by decide)
  · exact (claim_C5_synonym_resolution.2.1 ("x") ("") (by decide)).1

theorem optEntry_key {kv : String × FVal} {k : String} {o : Option FVal}
    (h : kv ∈ optEntry k o) : kv.1 = k := by
  obtain ⟨v, -, rfl⟩ := mem_optEntry h
  rfl

theorem mem_setField {kv : String × FVal} {d : Doc} {k : String} {v : FVal}
    (h : kv ∈ setField d k v) : kv ∈ d ∨ kv = (k, v) := by
  induction d with
  | nil =>
    simp [setField] at h
    exact Or.inr h
  | cons kv0 rest ih =>
    by_cases hk : kv0.1 = k
    · simp only [setField, hk, if_pos, List.mem_cons] at h
      rcases h with h | h
      · exact Or.inr h
      · exact Or.inl (List.mem_cons_of_mem _ h)
    · simp only [setField, hk, if_neg, ite_false, List.mem_cons] at h
      rcases h with h | h
      · exact Or.inl (h ▸ List.mem_cons_self _ _)
      · rcases ih h with h' | h'
        · exact Or.inl (List.mem_cons_of_mem _ h')
        · exact Or.inr h'

theorem updateEntryDoc_key {kv : String × FVal} {u : EntryUpdates} {now : Nat}
    (h : kv ∈ updateEntryDoc u now) :
    kv.1 = ("updatedAt" : String)
    ∨ (kv.1 = ("title" : String) ∧ u.title ≠ none)
    ∨ (kv.1 = ("content" : String) ∧ u.content ≠ none)
    ∨ (kv.1 = ("description" : String) ∧ u.description ≠ none)
    ∨ (kv.1 = ("name" : String) ∧ u.name ≠ none)
    ∨ (kv.1 = ("date" : String) ∧ u.date ≠ none)
    ∨ (kv.1 = ("mediaUrls" : String) ∧ u.mediaUrls ≠ none) := by
  rcases List.mem_cons.mp h with h0 | h0
  · exact Or.inl (by rw [h0])
  · simp only [List.mem_append] at h0
    rcases h0 with ((((h1 | h1) | h1) | h1) | h1) | h1
    · obtain ⟨v, hv, rfl⟩ := mem_optEntry h1
      obtain ⟨t, ht, -⟩ := Option.map_eq_some'.mp hv
      exact Or.inr (Or.inl ⟨rfl, by simp [ht]⟩)
    · obtain ⟨v, hv, rfl⟩ := mem_optEntry h1
      obtain ⟨t, ht, -⟩ := Option.map_eq_some'.mp hv
      exact Or.inr (Or.inr (Or.inl ⟨rfl, by simp [ht]⟩))
    · obtain ⟨v, hv, rfl⟩ := mem_optEntry h1
      obtain ⟨t, ht, -⟩ := Option.map_eq_some'.mp hv
      exact Or.inr (Or.inr (Or.inr (Or.inl ⟨rfl, by simp [ht]⟩)))
    · obtain ⟨v, hv, rfl⟩ := mem_optEntry h1
      obtain ⟨t, ht, -⟩ := Option.map_eq_some'.mp hv
      exact Or.inr (Or.inr (Or.inr (Or.inr (Or.inl ⟨rfl, by simp [ht]⟩))))
    · obtain ⟨v, hv, rfl⟩ := mem_optEntry h1
      obtain ⟨t, ht, -⟩ := Option.map_eq_some'.mp hv
      exact Or.inr (Or.inr (Or.inr (Or.inr (Or.inr (Or.inl ⟨rfl, by simp [ht]⟩)))))
    · obtain ⟨v, hv, rfl⟩ := mem_optEntry h1
      obtain ⟨t, ht, -⟩ := Option.map_eq_some'.mp hv
      exact Or.inr (Or.inr (Or.inr (Or.inr (Or.inr (Or.inr ⟨rfl, by simp [ht]⟩)))))

theorem updateHabitDoc_key {kv : String × FVal} {hu : HabitUpdates} {now : Nat}
    (h : kv ∈ updateHabitDoc hu now) :
    kv.1 = ("updatedAt" : String)
    ∨ (kv.1 = ("name" : String) ∧ hu.name ≠ none)
    ∨ (kv.1 = ("description" : String) ∧ hu.description ≠ none)
    ∨ (kv.1 = ("targetHours" : String) ∧ hu.targetHours ≠ none)
    ∨ (kv.1 = ("color" : String) ∧ hu.color ≠ none) := by
  unfold updateHabitDoc at h
  rcases mem_setField h with h0 | h0
  · simp only [List.mem_append] at h0
    rcases h0 with (((h1 | h1) | h1) | h1) | h1
    · obtain ⟨v, hv, rfl⟩ := mem_optEntry h1
      obtain ⟨t, ht, -⟩ := Option.map_eq_some'.mp hv
      exact Or.inr (Or.inl ⟨rfl, by simp [ht]⟩)
    · obtain ⟨v, hv, rfl⟩ := mem_optEntry h1
      obtain ⟨t, ht, -⟩ := Option.map_eq_some'.mp hv
      exact Or.inr (Or.inr (Or.inl ⟨rfl, by simp [ht]⟩))
    · obtain ⟨v, hv, rfl⟩ := mem_optEntry h1
      obtain ⟨t, ht, -⟩ := Option.map_eq_some'.mp hv
      exact Or.inr (Or.inr (Or.inr (Or.inl ⟨rfl, by simp [ht]⟩)))
    · obtain ⟨v, hv, rfl⟩ := mem_optEntry h1
      obtain ⟨t, ht, -⟩ := Option.map_eq_some'.mp hv
      exact Or.inr (Or.inr (Or.inr (Or.inr ⟨rfl, by simp [ht]⟩)))
    · exact Or.inl (optEntry_key h1)
  · exact Or.inl (by rw [h0])

theorem getField_merge_updateEntry_updatedAt (d : Doc) (u : EntryUpdates) (now : Nat) :
    getField (updateDocMerge d (updateEntryDoc u now)) ("updatedAt")
      = some (FVal.ts now) := by
  unfold updateEntryDoc
  rw [show ∀ (t : Doc),
      updateDocMerge d ((("updatedAt" : String), FVal.ts now) :: t)
        = updateDocMerge (setField d ("updatedAt") (FVal.ts now)) t from fun t => rfl]
  rw [getField_updateDocMerge_not_mem]
  · exact getField_setField_self _ _ _
  · intro kv hkv
    simp only [List.mem_append] at hkv
    rcases hkv with ((((h1 | h1) | h1) | h1) | h1) | h1 <;>
      (rw [optEntry_key h1]; decide)

theorem getField_merge_updateHabit_updatedAt (d : Doc) (hu : HabitUpdates) (now : Nat) :
    getField (updateDocMerge d (updateHabitDoc hu now)) ("updatedAt")
      = some (FVal.ts now) := by
  have hpre : ∀ kv ∈ (optEntry ("name") (hu.name.map FVal.str)
      ++ optEntry ("description") (hu.description.map FVal.str)
      ++ optEntry ("targetHours") (hu.targetHours.map FVal.num)
      ++ optEntry ("color") (hu.color.map FVal.str)),
      kv.1 ≠ ("updatedAt" : String) := by
    intro kv hkv
    simp only [List.mem_append] at hkv
    rcases hkv with ((h1 | h1) | h1) | h1 <;> (rw [optEntry_key h1]; decide)
  unfold updateHabitDoc
  rcases hup : hu.updatedAt with - | t
  · simp only [Option.map_none']
    rw [show optEntry ("updatedAt") (none : Option FVal) = ([] : Doc) from rfl,
      List.append_nil]
    rw [setField_of_not_mem _ _ _ hpre]
    exact getField_updateDocMerge_last _ _ _ _
  · simp only [Option.map_some']
    rw [show optEntry ("updatedAt") (some (FVal.ts t)) = [(("updatedAt" : String), FVal.ts t)] from rfl]
    rw [setField_append_of_not_mem _ _ _ _ hpre]
    rw [show setField [(("updatedAt" : String), FVal.ts t)] ("updatedAt") (FVal.ts now)
        = [(("updatedAt" : String), FVal.ts now)] from rfl]
    exact getField_updateDocMerge_last _ _ _ _

/-- C8: a partial update of an Entry or a Habit leaves every stored field
not present in the payload unchanged, always refreshes `updatedAt` to the
current write time, and under a monotone clock the new `updatedAt` is at
least the prior value even when the payload changes nothing else. -/
theorem claim_C8_partial_update_frame (d : Doc) (u : EntryUpdates) (hu : HabitUpdates)
    (now prior : Nat) :
    (u.title = none →
      getField (updateDocMerge d (updateEntryDoc u now)) ("title") = getField d ("title"))
    ∧ (u.content = none →
      getField (updateDocMerge d (updateEntryDoc u now)) ("content") = getField d ("content"))
    ∧ (u.description = none →
      getField (updateDocMerge d (updateEntryDoc u now)) ("description")
        = getField d ("description"))
    ∧ (u.name = none →
      getField (updateDocMerge d (updateEntryDoc u now)) ("name") = getField d ("name"))
    ∧ (u.date = none →
      getField (updateDocMerge d (updateEntryDoc u now)) ("date") = getField d ("date"))
    ∧ (u.mediaUrls = none →
      getField (updateDocMerge d (updateEntryDoc u now)) ("mediaUrls")
        = getField d ("mediaUrls"))
    ∧ getField (updateDocMerge d (updateEntryDoc u now)) ("userId") = getField d ("userId")
    ∧ getField (updateDocMerge d (updateEntryDoc u now)) ("createdAt")
        = getField d ("createdAt")
    ∧ getField (updateDocMerge d (updateEntryDoc u now)) ("updatedAt")
        = some (FVal.ts now)
    ∧ (hu.name = none →
      getField (updateDocMerge d (updateHabitDoc hu now)) ("name") = getField d ("name"))
    ∧ (hu.description = none →
      getField (updateDocMerge d (updateHabitDoc hu now)) ("description")
        = getField d ("description"))
    ∧ (hu.targetHours = none →
      getField (updateDocMerge d (updateHabitDoc hu now)) ("targetHours")
        = getField d ("targetHours"))
    ∧ (hu.color = none →
      getField (updateDocMerge d (updateHabitDoc hu now)) ("color") = getField d ("color"))
    ∧ getField (updateDocMerge d (updateHabitDoc hu now)) ("userId") = getField d ("userId")
    ∧ getField (updateDocMerge d (updateHabitDoc hu now)) ("createdAt")
        = getField d ("createdAt")
    ∧ getField (updateDocMerge d (updateHabitDoc hu now)) ("updatedAt")
        = some (FVal.ts now)
    ∧ (getTs d ("updatedAt") = some prior → prior ≤ now →
        getTs (updateDocMerge d (updateEntryDoc u now)) ("updatedAt") = some now
        ∧ prior ≤ now) := by
  refine ⟨?_, ?_, ?_, ?_, ?_, ?_, ?_, ?_,
    getField_merge_updateEntry_updatedAt d u now, ?_, ?_, ?_, ?_, ?_, ?_,
    getField_merge_updateHabit_updatedAt d hu now, ?_⟩
  · intro hc
    refine getField_updateDocMerge_not_mem _ _ _ ?_
    intro kv hkv
    rcases updateEntryDoc_key hkv with h | h | h | h | h | h | h <;> simp_all
  · intro hc
    refine getField_updateDocMerge_not_mem _ _ _ ?_
    intro kv hkv
    rcases updateEntryDoc_key hkv with h | h | h | h | h | h | h <;> simp_all
  · intro hc
    refine getField_updateDocMerge_not_mem _ _ _ ?_
    intro kv hkv
    rcases updateEntryDoc_key hkv with h | h | h | h | h | h | h <;> simp_all
  · intro hc
    refine getField_updateDocMerge_not_mem _ _ _ ?_
    intro kv hkv
    rcases updateEntryDoc_key hkv with h | h | h | h | h | h | h <;> simp_all
  · intro hc
    refine getField_updateDocMerge_not_mem _ _ _ ?_
    intro kv hkv
    rcases updateEntryDoc_key hkv with h | h | h | h | h | h | h <;> simp_all
  · intro hc
    refine getField_updateDocMerge_not_mem _ _ _ ?_
    intro kv hkv
    rcases updateEntryDoc_key hkv with h | h | h | h | h | h | h <;> simp_all
  · refine getField_updateDocMerge_not_mem _ _ _ ?_
    intro kv hkv
    rcases updateEntryDoc_key hkv with h | h | h | h | h | h | h <;> simp_all
  · refine getField_updateDocMerge_not_mem _ _ _ ?_
    intro kv hkv
    rcases updateEntryDoc_key hkv with h | h | h | h | h | h | h <;> simp_all
  · intro hc
    refine getField_updateDocMerge_not_mem _ _ _ ?_
    intro kv hkv
    rcases updateHabitDoc_key hkv with h | h | h | h | h <;> simp_all
  · intro hc
    refine getField_updateDocMerge_not_mem _ _ _ ?_
    intro kv hkv
    rcases updateHabitDoc_key hkv with h | h | h | h | h <;> simp_all
  · intro hc
    refine getField_updateDocMerge_not_mem _ _ _ ?_
    intro kv hkv
    rcases updateHabitDoc_key hkv with h | h | h | h | h <;> simp_all
  · intro hc
    refine getField_updateDocMerge_not_mem _ _ _ ?_
    intro kv hkv
    rcases updateHabitDoc_key hkv with h | h | h | h | h <;> simp_all
  · refine getField_updateDocMerge_not_mem _ _ _ ?_
    intro kv hkv
    rcases updateHabitDoc_key hkv with h | h | h | h | h <;> simp_all
  · refine getField_updateDocMerge_not_mem _ _ _ ?_
    intro kv hkv
    rcases updateHabitDoc_key hkv with h | h | h | h | h <;> simp_all
  · intro _ hle
    refine ⟨?_, hle⟩
    simp [getTs, getField_merge_updateEntry_updatedAt d u now]

/-- C8 witness: a concrete empty-payload update leaves an unrelated
stored field unchanged while refreshing `updatedAt` from 3 to 7. -/
theorem claim_C8_witness :
    (({ title := none, content := none, description := none, name := none,
        date := none, mediaUrls := none } : EntryUpdates).title = none
      → getField (updateDocMerge [(("title" : String), FVal.str ("old")),
            (("updatedAt" : String), FVal.ts 3)]
          (updateEntryDoc
            { title := none, content := none, description := none, name := none,
              date := none, mediaUrls := none } 7)) ("title")
        = getField [(("title" : String), FVal.str ("old")),
            (("updatedAt" : String), FVal.ts 3)] ("title"))
    ∧ (getTs [(("title" : String), FVal.str ("old")), (("updatedAt" : String), FVal.ts 3)]
          ("updatedAt") = some 3 → 3 ≤ 7 →
        getTs (updateDocMerge [(("title" : String), FVal.str ("old")),
            (("updatedAt" : String), FVal.ts 3)]
          (updateEntryDoc
            { title := none, content := none, description := none, name := none,
              date := none, mediaUrls := none } 7)) ("updatedAt") = some 7
        ∧ 3 ≤ 7) := by
  refine ⟨?_, ?_⟩
  · exact fun _ => (claim_C8_partial_update_frame
      [(("title" : String), FVal.str ("old")), (("updatedAt" : String), FVal.ts 3)]
      { title := none, content := none, description := none, name := none,
        date := none, mediaUrls := none }
      { name := none, description := none, targetHours := none, color := none,
        updatedAt := none } 7 3).1 rfl
  · exact fun h1 h2 => (claim_C8_partial_update_frame
      [(("title" : String), FVal.str ("old")), (("updatedAt" : String), FVal.ts 3)]
      { title := none, content := none, description := none, name := none,
        date := none, mediaUrls := none }
      { name := none, description := none, targetHours := none, color := none,
        updatedAt := none } 7 3).2.2.2.2.2.2.2.2.2.2.2.2.2.2.2.2 h1 h2

/-- C10: the habit-statistics computation returns a progress percentage
equal to `min(100, round(totalHours / targetHours * 100))`, which never
exceeds 100, and entries with a missing `hours` field contribute 0 to
the total. -/
theorem claim_C10_progress_capped (target : ℚ) (l : List (Option ℚ)) (_hpos : 0 < target) :
    (getHabitStats target l).progressPercentage
        = min 100 (round (totalHours l / target * 100))
    ∧ (getHabitStats target l).progressPercentage ≤ 100
    ∧ (∀ l₁ l₂ : List (Option ℚ),
        totalHours (l₁ ++ (none : Option ℚ) :: l₂) = totalHours (l₁ ++ l₂)) := by
  refine ⟨rfl, min_le_left _ _, ?_⟩
  intro l₁ l₂
  rw [totalHours, totalHours, List.foldl_append, List.foldl_append]
  simp [jsOrNum]

/-- C10 witness: a habit with target 2 and entries of 1h, a missing
hours field, and 5h caps at 100. -/
theorem claim_C10_witness :
    (0 : ℚ) < 2
    ∧ (getHabitStats 2 [some 1, none, some 5]).progressPercentage
        = min 100 (round (totalHours [some 1, none, some 5] / 2 * 100))
    ∧ (getHabitStats 2 [some 1, none, some 5]).progressPercentage ≤ 100 := by
  refine ⟨by norm_num, ?_, ?_⟩
  · exact (claim_C10_progress_capped 2 [some 1, none, some 5] (by norm_num)).1
  · exact (claim_C10_progress_capped 2 [some 1, none, some 5] (by norm_num)).2.1

end PinPotha
